import Mathlib

/-!
Verification of the File Tree implementation (ft.c, noded.c, nodef.c) and
the Directory Tree invariant checker (checkerDT.c).

Shallow embedding conventions:

* `Path_T` is the external `Path_T` collaborator (path.c is not part of the
  sources).  Modelled from the spec: a path is an ordered sequence of
  non-empty components; `depth` is the component count, `prefix k` keeps the
  first `k` components, `sharedPrefixDepth` is the longest common component
  prefix, and paths are totally ordered by component-wise lexicographic
  comparison.  The claims depend only on equality and the total order of
  components, so components are drawn from `Nat` identifiers.
* `DynArray_bsearch` (dynarray.c is also external) is modelled by its
  documented contract on the sorted child arrays: the found flag is whether
  an element with the key path exists, and the reported slot is the position
  the key occupies or would occupy; insertion at the reported slot is
  modelled by sorted insertion, removal at the found slot by removing the
  element with that path.
* Heap mutation is modelled by rebuilding the tree along the mutated path;
  a parent back-pointer is identified with the node reached by descending
  the parent's path from the root.
* Allocation is modelled by an oracle `alloc : Nat → Bool` consulted at the
  allocation points of `FT_insertDir` / `FT_insertFile` that are reachable
  after the tree has started to change (one point per constructed directory
  level, one for `NodeF_new`, one for `NodeD_addFileChild`); `false` means
  the allocation fails, which makes the code return `MEMORY_ERROR`.
-/

/-- Return statuses of a4def.h used by ft.c. -/
inductive Status where
  | SUCCESS
  | INITIALIZATION_ERROR
  | BAD_PATH
  | CONFLICTING_PATH
  | NOT_A_DIRECTORY
  | NOT_A_FILE
  | ALREADY_IN_TREE
  | NO_SUCH_PATH
  | MEMORY_ERROR
deriving DecidableEq, Repr

/-- Modelled from the spec: an absolute path is the ordered sequence of its
components; components are abstracted to `Nat` identifiers. -/
abbrev Path_T := List Nat

/-- Modelled from the spec: component-wise lexicographic order on paths
(`Path_comparePath` / `Path_compareString` yield a negative result exactly
when this holds). -/
def pathLt : Path_T → Path_T → Bool
  | [], [] => false
  | [], _ :: _ => true
  | _ :: _, [] => false
  | a :: as, b :: bs => if a = b then pathLt as bs else decide (a < b)

/-- Modelled from the spec: `Path_getSharedPrefixDepth`, the length of the
longest common component prefix of two paths. -/
def sharedPrefixDepth : Path_T → Path_T → Nat
  | a :: as, b :: bs => if a = b then sharedPrefixDepth as bs + 1 else 0
  | _, _ => 0

/-- struct nodeF of nodef.c: absolute path, content length, contents
(`pvContents` is a raw pointer that may be NULL, hence an `Option`). -/
structure NodeF where
  oPPath : Path_T
  ulLength : Nat
  pvContents : Option (List Nat)
deriving DecidableEq, Repr

/-- struct nodeD of noded.c: absolute path, sorted directory children and
sorted file children.  The parent back-pointer is represented implicitly:
the parent of a node is the node reached by descending the parent's path
from the root. -/
inductive NodeD where
  | mk : Path_T → List NodeD → List NodeF → NodeD

/-- NodeD_getPath. -/
def NodeD.oPPath : NodeD → Path_T
  | .mk q _ _ => q

/-- The directory-children array of a directory node. -/
def NodeD.oDDirChildren : NodeD → List NodeD
  | .mk _ ds _ => ds

/-- The file-children array of a directory node. -/
def NodeD.oDFileChildren : NodeD → List NodeF
  | .mk _ _ fs => fs

/-- Computation rule for the path accessor. -/
@[simp] theorem NodeD.oPPath_mk (q : Path_T) (ds : List NodeD) (fs : List NodeF) :
    NodeD.oPPath (.mk q ds fs) = q := rfl

/-- Computation rule for the directory-children accessor. -/
@[simp] theorem NodeD.oDDirChildren_mk (q : Path_T) (ds : List NodeD) (fs : List NodeF) :
    NodeD.oDDirChildren (.mk q ds fs) = ds := rfl

/-- Computation rule for the file-children accessor. -/
@[simp] theorem NodeD.oDFileChildren_mk (q : Path_T) (ds : List NodeD) (fs : List NodeF) :
    NodeD.oDFileChildren (.mk q ds fs) = fs := rfl

/-- NodeD_hasDirChild / NodeD_getDirChild combined: DynArray_bsearch over
the sorted directory-children array, returning the child whose path equals
the key if present. -/
def lookupDirChild (n : NodeD) (q : Path_T) : Option NodeD :=
  (NodeD.oDDirChildren n).find? (fun d => decide (NodeD.oPPath d = q))

/-- NodeD_hasFileChild / NodeD_getFileChild combined: DynArray_bsearch over
the sorted file-children array. -/
def lookupFileChild (n : NodeD) (q : Path_T) : Option NodeF :=
  (NodeD.oDFileChildren n).find? (fun f => decide (NodeF.oPPath f = q))

/-- DynArray_addAt at the slot reported by the bsearch of
NodeD_hasDirChild: on a sorted array this is sorted insertion. -/
def insertDirSorted (c : NodeD) : List NodeD → List NodeD
  | [] => [c]
  | d :: rest =>
      if pathLt (NodeD.oPPath d) (NodeD.oPPath c) then d :: insertDirSorted c rest
      else c :: d :: rest

/-- DynArray_addAt at the slot reported by the bsearch of
NodeD_hasFileChild: sorted insertion into the file-children array. -/
def insertFileSorted (f : NodeF) : List NodeF → List NodeF
  | [] => [f]
  | g :: rest =>
      if pathLt (NodeF.oPPath g) (NodeF.oPPath f) then g :: insertFileSorted f rest
      else f :: g :: rest

/-- The three static state variables of ft.c. -/
structure FT where
  bIsInitialized : Bool
  oNRoot : Option NodeD
  ulDirCount : Nat

/-- The loop of FT_traversePath (ft.c lines 83-102): starting from the node
whose path is `qc`, follow the successive prefixes of the target path (the
remaining components are `rem`), descending only into directory children,
and stop at the last matched directory. -/
def FT_descend (n : NodeD) (qc : Path_T) : List Nat → NodeD
  | [] => n
  | s :: rem =>
      match lookupDirChild n (qc ++ [s]) with
      | some c => FT_descend c (qc ++ [s]) rem
      | none => n

/-- FT_traversePath (ft.c lines 46-106): NULL root yields no furthest node
with SUCCESS; a root whose path differs from the depth-1 prefix of the
target yields CONFLICTING_PATH; otherwise descend from the root. -/
def FT_traversePath (t : Option NodeD) (oPPath : Path_T) : Except Status (Option NodeD) :=
  match t with
  | none => .ok none
  | some r =>
      if NodeD.oPPath r = oPPath.take 1 then
        .ok (some (FT_descend r (oPPath.take 1) (oPPath.drop 1)))
      else .error .CONFLICTING_PATH

/-- FT_findDir (ft.c lines 109-151). -/
def FT_findDir (ft : FT) (p : Path_T) : Except Status NodeD :=
  if ft.bIsInitialized = false then .error .INITIALIZATION_ERROR
  else
    match FT_traversePath ft.oNRoot p with
    | .error s => .error s
    | .ok none => .error .NO_SUCH_PATH
    | .ok (some n) =>
        if NodeD.oPPath n = p then .ok n else .error .NOT_A_DIRECTORY

/-- The body of FT_findFile (ft.c lines 154-217) after the initialization
check: traverse, require the furthest directory to be the depth-1-shorter
prefix of the target, then look the file up among its file children. -/
def findFileT (t : Option NodeD) (p : Path_T) : Except Status NodeF :=
  match FT_traversePath t p with
  | .error s => .error s
  | .ok none => .error .NO_SUCH_PATH
  | .ok (some par) =>
      if NodeD.oPPath par = p.take (p.length - 1) then
        match lookupFileChild par p with
        | some f => .ok f
        | none => .error .NO_SUCH_PATH
      else .error .NO_SUCH_PATH

/-- FT_findFile (ft.c lines 154-217). -/
def FT_findFile (ft : FT) (p : Path_T) : Except Status NodeF :=
  if ft.bIsInitialized = false then .error .INITIALIZATION_ERROR
  else findFileT ft.oNRoot p

/-- FT_containsFile as invoked on an initialized tree (ft.c lines 520-528):
true exactly when FT_findFile succeeds. -/
def containsFileT (t : Option NodeD) (p : Path_T) : Bool :=
  match findFileT t p with
  | .ok _ => true
  | .error _ => false

/-- FT_containsFile (ft.c lines 520-528). -/
def FT_containsFile (ft : FT) (p : Path_T) : Bool :=
  match FT_findFile ft p with
  | .ok _ => true
  | .error _ => false

/-- FT_containsDir (ft.c lines 333-341). -/
def FT_containsDir (ft : FT) (p : Path_T) : Bool :=
  match FT_findDir ft p with
  | .ok _ => true
  | .error _ => false

/-- The linear chain of fresh directory nodes built by the construction loop
of FT_insertDir / FT_insertFile: one empty directory per missing level. -/
def chainD (q : Path_T) : List Nat → NodeD
  | [] => .mk q [] []
  | s :: rest => .mk q [chainD (q ++ [s]) rest] []

/-- NodeD_addDirChild viewed from the root: descend the relative component
list and insert the new child into the directory-children array of the node
reached (at the slot reported by the bsearch, i.e. sorted insertion). -/
def attachSub : NodeD → List Nat → NodeD → NodeD
  | .mk q ds fs, [], c => .mk q (insertDirSorted c ds) fs
  | .mk q ds fs, s :: rest, c =>
      .mk q (ds.map (fun d => if NodeD.oPPath d = q ++ [s] then attachSub d rest c else d)) fs

/-- The detach step of NodeD_free viewed from the root: descend the relative
component list to the parent of the target and remove the directory child
carrying the target path (DynArray_removeAt at the slot found by bsearch);
the whole removed subtree is freed with it. -/
def removeSub : NodeD → List Nat → NodeD
  | n, [] => n
  | .mk q ds fs, [s] =>
      .mk q (ds.filter (fun d => decide (NodeD.oPPath d ≠ q ++ [s]))) fs
  | .mk q ds fs, s :: s2 :: rest =>
      .mk q (ds.map (fun d => if NodeD.oPPath d = q ++ [s] then removeSub d (s2 :: rest) else d)) fs

/-- NodeD_addFileChild viewed from the root: descend to the parent node and
insert the file into its file-children array at the bsearch slot. -/
def addFileSub : NodeD → List Nat → NodeF → NodeD
  | .mk q ds fs, [], f => .mk q ds (insertFileSorted f fs)
  | .mk q ds fs, s :: rest, f =>
      .mk q (ds.map (fun d => if NodeD.oPPath d = q ++ [s] then addFileSub d rest f else d)) fs

/-- The detach-and-free step of FT_rmFile viewed from the root: descend to
the parent node and remove the file child carrying the target path. -/
def removeFileSub : NodeD → List Nat → Path_T → NodeD
  | .mk q ds fs, [], p => .mk q ds (fs.filter (fun f => decide (NodeF.oPPath f ≠ p)))
  | .mk q ds fs, s :: rest, p =>
      .mk q (ds.map (fun d => if NodeD.oPPath d = q ++ [s] then removeFileSub d rest p else d)) fs

/-- Attach a new directory subtree `c` under the existing node with path `a`. -/
def attachAt (t : Option NodeD) (a : Path_T) (c : NodeD) : Option NodeD :=
  match t with
  | none => none
  | some r => some (attachSub r (a.drop (NodeD.oPPath r).length) c)

/-- Remove the directory node with path `target` (and its subtree) from the
tree; removing the root's own path leaves the stale value in place, matching
the fact that ft.c frees the structure without clearing the pointer. -/
def removeAt (t : Option NodeD) (target : Path_T) : Option NodeD :=
  match t with
  | none => none
  | some r => some (removeSub r (target.drop (NodeD.oPPath r).length))

/-- Insert a file node under the existing node with path `a`. -/
def addFileAt (t : Option NodeD) (a : Path_T) (f : NodeF) : Option NodeD :=
  match t with
  | none => none
  | some r => some (addFileSub r (a.drop (NodeD.oPPath r).length) f)

/-- Remove the file child with path `p` from the node with path `a`. -/
def removeFileAt (t : Option NodeD) (a : Path_T) (p : Path_T) : Option NodeD :=
  match t with
  | none => none
  | some r => some (removeFileSub r (a.drop (NodeD.oPPath r).length) p)

/-- Descend from a node along relative components, one directory child per
component (each step moves to the child whose path extends the current path
by that component). -/
def nodeAtRel : NodeD → List Nat → Option NodeD
  | n, [] => some n
  | .mk q ds _, s :: rest =>
      match ds.find? (fun d => decide (NodeD.oPPath d = q ++ [s])) with
      | some d => nodeAtRel d rest
      | none => none

/-- The directory node with absolute path `q`, reached by descending from
the root (this is how a parent pointer is resolved in the embedding). -/
def dirNodeAt (t : Option NodeD) (q : Path_T) : Option NodeD :=
  match t with
  | none => none
  | some r =>
      if q.take (NodeD.oPPath r).length = NodeD.oPPath r then
        nodeAtRel r (q.drop (NodeD.oPPath r).length)
      else none

/-- NodeD_hasFileChild applied to the node with path `parentPath`. -/
def hasFileChildAt (t : Option NodeD) (parentPath p : Path_T) : Bool :=
  match dirNodeAt t parentPath with
  | some n => ((NodeD.oDFileChildren n).find? (fun f => decide (NodeF.oPPath f = p))).isSome
  | none => false

/-- The heap tree visible during the construction loop of FT_insertDir /
FT_insertFile after the levels listed in `done` have been built: if the
deepest pre-existing ancestor `a` exists, the partial chain is already
linked below it (NodeD_new links each new node immediately); in the
new-root case `oNRoot` is still untouched, so the heap tree is unchanged. -/
def heapOf (t0 : Option NodeD) (a : Option Path_T) (done : List Nat) : Option NodeD :=
  match a, done with
  | some ap, c0 :: drest => attachAt t0 ap (chainD (ap ++ [c0]) drest)
  | _, _ => t0

/-- The heap tree after the failure handler `NodeD_free(oNFirstNew)` of
FT_insertDir / FT_insertFile has run: the first new node (path
`a ++ [first component of done]`) is detached from its parent and its
subtree freed; if nothing was built yet, nothing changes. -/
def rollbackOf (t0 : Option NodeD) (a : Option Path_T) (done : List Nat) : Option NodeD :=
  match a, done with
  | some ap, c0 :: _ => removeAt (heapOf t0 a done) (ap ++ [c0])
  | _, _ => t0

/-- Shared epilogue of FT_insertDir / FT_insertFile (ft.c lines 319-325 and
506-512): on SUCCESS install the resulting tree as `oNRoot` and add
`ulNewNodes` to the counter; on failure the rolled-back tree is in place
and the counter is untouched. -/
def finishInsert (ft : FT) (r : Status × Option NodeD × Nat) : Status × FT :=
  match r with
  | (.SUCCESS, t', k) => (.SUCCESS, { ft with oNRoot := t', ulDirCount := ft.ulDirCount + k })
  | (s, t', _) => (s, { ft with oNRoot := t' })

/-- The construction loop of FT_insertDir (ft.c lines 277-317): while
components remain, check FT_containsFile on the prefix of the next level
(NOT_A_DIRECTORY, with rollback, if a file sits there), consult the
allocation oracle for NodeD_new (MEMORY_ERROR, with rollback, on failure),
and otherwise link the next level.  When all components are consumed the
call succeeds with `ulNewNodes = done.length`; in the new-root case the
finished chain becomes the tree installed as the root. -/
def FT_insertDirGo (t0 : Option NodeD) (a : Option Path_T) (alloc : Nat → Bool) :
    Nat → Path_T → List Nat → List Nat → Status × Option NodeD × Nat
  | _, _, done, [] =>
      (.SUCCESS,
        match a, done with
        | none, c0 :: drest => some (chainD [c0] drest)
        | none, [] => t0
        | some _, _ => heapOf t0 a done,
        done.length)
  | i, qc, done, s :: rem =>
      if containsFileT (heapOf t0 a done) (qc ++ [s]) then
        (.NOT_A_DIRECTORY, rollbackOf t0 a done, 0)
      else if alloc i = false then
        (.MEMORY_ERROR, rollbackOf t0 a done, 0)
      else FT_insertDirGo t0 a alloc (i + 1) (qc ++ [s]) (done ++ [s]) rem

/-- FT_insertDir (ft.c lines 231-326). -/
def FT_insertDir (ft : FT) (p : Path_T) (alloc : Nat → Bool) : Status × FT :=
  if ft.bIsInitialized = false then (.INITIALIZATION_ERROR, ft)
  else
    match FT_traversePath ft.oNRoot p with
    | .error s => (s, ft)
    | .ok none =>
        match ft.oNRoot with
        | some _ => (.CONFLICTING_PATH, ft)
        | none => finishInsert ft (FT_insertDirGo ft.oNRoot none alloc 1 [] [] p)
    | .ok (some curr) =>
        if (NodeD.oPPath curr).length + 1 = p.length + 1 ∧ p = NodeD.oPPath curr then
          (.ALREADY_IN_TREE, ft)
        else
          finishInsert ft
            (FT_insertDirGo ft.oNRoot (some (NodeD.oPPath curr)) alloc
              ((NodeD.oPPath curr).length + 1) (NodeD.oPPath curr) []
              (p.drop (NodeD.oPPath curr).length))

/-- The construction loop and file-creation epilogue of FT_insertFile (ft.c
lines 441-504): directory levels are built only while at least two
components remain (the last component is the file itself); then NodeF_new
runs (its depth check, then its allocation), the parent's file children are
searched once more (the late ALREADY_IN_TREE return of line 493, which
keeps the chain linked), and NodeD_addFileChild links the new file node
(one more allocation point).  Note that the created file node carries
length 0 and NULL contents — FT_insertFile never stores the caller's
`pvContents` / `ulLength` into it. -/
def FT_insertFileGo (t0 : Option NodeD) (a : Option Path_T) (p : Path_T) (alloc : Nat → Bool) :
    Nat → Path_T → List Nat → List Nat → Status × Option NodeD × Nat
  | i, qc, done, s :: s2 :: rem =>
      if containsFileT (heapOf t0 a done) (qc ++ [s]) then
        (.NOT_A_DIRECTORY, rollbackOf t0 a done, 0)
      else if alloc i = false then
        (.MEMORY_ERROR, rollbackOf t0 a done, 0)
      else FT_insertFileGo t0 a p alloc (i + 1) (qc ++ [s]) (done ++ [s]) (s2 :: rem)
  | i, qc, done, _ =>
      if p.length ≤ 1 then (.NO_SUCH_PATH, rollbackOf t0 a done, 0)
      else if alloc i = false then (.MEMORY_ERROR, rollbackOf t0 a done, 0)
      else if hasFileChildAt (heapOf t0 a done) qc p then
        (.ALREADY_IN_TREE, heapOf t0 a done, 0)
      else if alloc (i + 1) = false then (.MEMORY_ERROR, rollbackOf t0 a done, 0)
      else
        (.SUCCESS,
          addFileAt
            (match a, done with
             | none, c0 :: drest => some (chainD [c0] drest)
             | none, [] => t0
             | some _, _ => heapOf t0 a done)
            qc { oPPath := p, ulLength := 0, pvContents := none },
          done.length + 1)

/-- FT_insertFile (ft.c lines 388-513).  The `pvContents` and `ulLength`
arguments are accepted and then never written into the created file node,
exactly as in the source. -/
def FT_insertFile (ft : FT) (p : Path_T) (pvContents : Option (List Nat)) (ulLength : Nat)
    (alloc : Nat → Bool) : Status × FT :=
  if ft.bIsInitialized = false then (.INITIALIZATION_ERROR, ft)
  else if p.length = 1 then (.CONFLICTING_PATH, ft)
  else
    match FT_traversePath ft.oNRoot p with
    | .error s => (s, ft)
    | .ok none =>
        match ft.oNRoot with
        | some _ => (.CONFLICTING_PATH, ft)
        | none => finishInsert ft (FT_insertFileGo ft.oNRoot none p alloc 1 [] [] p)
    | .ok (some par) =>
        if (lookupFileChild par p).isSome ∨ (lookupDirChild par p).isSome ∨ NodeD.oPPath par = p
        then (.ALREADY_IN_TREE, ft)
        else
          finishInsert ft
            (FT_insertFileGo ft.oNRoot (some (NodeD.oPPath par)) p alloc
              ((NodeD.oPPath par).length + 1) (NodeD.oPPath par) []
              (p.drop (NodeD.oPPath par).length))

mutual

/-- NodeD_free's return value (noded.c lines 221-259): the number of
directory nodes (excluding files) in the freed subtree. -/
def dirSize : NodeD → Nat
  | .mk _ ds _ => 1 + dirSizeL ds

/-- Sum of `dirSize` over a directory-children array. -/
def dirSizeL : List NodeD → Nat
  | [] => 0
  | d :: rest => dirSize d + dirSizeL rest

end

/-- FT_rmDir (ft.c lines 355-372): find the exact directory, subtract the
number of directories freed by NodeD_free, and clear the root pointer only
when the counter reaches zero (when the freed node was the root but the
counter is non-zero, ft.c leaves `oNRoot` dangling; the embedding keeps the
stale value, matching the unchanged pointer). -/
def FT_rmDir (ft : FT) (p : Path_T) : Status × FT :=
  match FT_findDir ft p with
  | .error s => (s, ft)
  | .ok n =>
      let cnt := ft.ulDirCount - dirSize n
      (.SUCCESS,
        { ft with
          oNRoot := if cnt = 0 then none else removeAt ft.oNRoot p,
          ulDirCount := cnt })

/-- The condition of the assert on ft.c line 367, evaluated when FT_rmDir
finds the directory: after `NodeD_free(oNFound)` returns, every directory
child of the freed node has detached itself, so the length of its
directory-children array is 0 (the assert also reads this length from
freed memory — a use after free); the assert compares it with the updated
`ulDirCount`.  `none` when FT_rmDir fails before the assert. -/
def FT_rmDirAssert (ft : FT) (p : Path_T) : Option Bool :=
  match FT_findDir ft p with
  | .error _ => none
  | .ok n => some (decide (0 = ft.ulDirCount - dirSize n))

/-- FT_rmFile (ft.c lines 542-568): find the exact file, re-traverse to its
parent directory, free the file node and remove it from the parent's
file-children array.  The directory counter is untouched. -/
def FT_rmFile (ft : FT) (p : Path_T) : Status × FT :=
  match FT_findFile ft p with
  | .error s => (s, ft)
  | .ok f =>
      (.SUCCESS,
        { ft with oNRoot := removeFileAt ft.oNRoot (p.take (p.length - 1)) (NodeF.oPPath f) })

/-- FT_getFileContents (ft.c lines 578-589): NULL both on failure and when
the stored contents are NULL. -/
def FT_getFileContents (ft : FT) (p : Path_T) : Option (List Nat) :=
  match FT_findFile ft p with
  | .error _ => none
  | .ok f => NodeF.pvContents f

/-- The stored content length of the file at `p` as reported by FT_stat
(ft.c lines 630-651, via NodeF_getLength). -/
def FT_statFileLength (ft : FT) (p : Path_T) : Option Nat :=
  match FT_findFile ft p with
  | .error _ => none
  | .ok f => some (NodeF.ulLength f)

/-- FT_init (ft.c lines 660-669): the freshly initialized empty tree. -/
def FT_init : FT :=
  { bIsInitialized := true, oNRoot := none, ulDirCount := 0 }

mutual

/-- Spec-side structural search: the directory node with absolute path `q`
anywhere in the subtree rooted at `n` (file children are never searched —
files are leaves, not intermediate segments). -/
def specFindDir : NodeD → Path_T → Option NodeD
  | .mk np ds fs, q =>
      if np = q then some (.mk np ds fs) else specFindDirL ds q

/-- Spec-side structural search over a directory-children array. -/
def specFindDirL : List NodeD → Path_T → Option NodeD
  | [], _ => none
  | d :: rest, q =>
      match specFindDir d q with
      | some m => some m
      | none => specFindDirL rest q

end

mutual

/-- Spec-side structural search for a file with absolute path `p` anywhere
in the subtree rooted at `n`. -/
def specHasFile : NodeD → Path_T → Bool
  | .mk _ ds fs, p => fs.any (fun f => decide (NodeF.oPPath f = p)) || specHasFileL ds p

/-- Spec-side structural file search over a directory-children array. -/
def specHasFileL : List NodeD → Path_T → Bool
  | [], _ => false
  | d :: rest, p => specHasFile d p || specHasFileL rest p

end

/-- The directory node with path `q` in an optional tree. -/
def specFindDirOpt (t : Option NodeD) (q : Path_T) : Option NodeD :=
  match t with
  | none => none
  | some r => specFindDir r q

/-- Whether a file node with path `p` exists anywhere in an optional tree. -/
def specHasFileOpt (t : Option NodeD) (p : Path_T) : Bool :=
  match t with
  | none => false
  | some r => specHasFile r p

/-- All-pairs strict ascending order (every earlier path is less than every
later path) — the sorted-sibling invariant of the child arrays. -/
def pairLt : List Path_T → Bool
  | [] => true
  | a :: r => r.all (fun b => pathLt a b) && pairLt r

mutual

/-- Structural well-formedness of a directory node: every directory child's
path extends the node's path by exactly one component, the directory and
file child arrays are strictly sorted, every file child's path also extends
the node's path by one component, and the directory children are themselves
well-formed. -/
def wfD : NodeD → Bool
  | .mk q ds fs =>
      wfDL q ds && pairLt (ds.map NodeD.oPPath) &&
      fs.all (fun f => decide ((NodeF.oPPath f).take q.length = q) &&
                       decide ((NodeF.oPPath f).length = q.length + 1)) &&
      pairLt (fs.map NodeF.oPPath)

/-- Well-formedness of a directory-children array below a node with path `q`. -/
def wfDL (q : Path_T) : List NodeD → Bool
  | [] => true
  | d :: rest =>
      (decide ((NodeD.oPPath d).take q.length = q) &&
       decide ((NodeD.oPPath d).length = q.length + 1)) &&
      wfD d && wfDL q rest

end

/-- Well-formedness of an optional tree. -/
def wfOpt : Option NodeD → Bool
  | none => true
  | some r => wfD r

/-- A Directory Tree node as seen by checkerDT.c (Node_T of the 2DT
program): its absolute path, the path of the node its parent pointer
designates (`none` for the root; kept as data so that corrupted parent
pointers are representable — the checker only ever reads the parent's
path), and its children. -/
inductive NodeDT where
  | mk : Path_T → Option Path_T → List NodeDT → NodeDT

/-- Node_getPath for checker nodes. -/
def NodeDT.dtPath : NodeDT → Path_T
  | .mk q _ _ => q

/-- The path of the node returned by Node_getParent (none for the root). -/
def NodeDT.dtParent : NodeDT → Option Path_T
  | .mk _ pp _ => pp

/-- The children array (Node_getNumChildren / Node_getChild). -/
def NodeDT.dtKids : NodeDT → List NodeDT
  | .mk _ _ ks => ks

/-- The inner loop of CheckerDT_Node_isValid (part_000 lines 70-96): child
`c1` against every later child `c2` — equal paths fail, and a pair not in
strictly ascending lexicographic order fails. -/
def checkerInnerLoop (c1 : Path_T) : List NodeDT → Bool
  | [] => true
  | c2 :: rest =>
      (decide (c1 ≠ NodeDT.dtPath c2) && pathLt c1 (NodeDT.dtPath c2)) &&
      checkerInnerLoop c1 rest

/-- The outer loop of CheckerDT_Node_isValid (part_000 lines 50-97): each
child is compared against the node's own path (equal absolute paths fail)
and against all later children. -/
def checkerChildLoop (np : Path_T) : List NodeDT → Bool
  | [] => true
  | c :: rest =>
      decide (np ≠ NodeDT.dtPath c) &&
      checkerInnerLoop (NodeDT.dtPath c) rest &&
      checkerChildLoop np rest

/-- CheckerDT_Node_isValid (part_000 lines 14-101).  The parent check
compares `Path_getSharedPrefixDepth(node, parent)` with
`Path_getDepth(node) - 1`; the subtraction is on `size_t`, so for a
depth-0 node the right-hand side wraps to `SIZE_MAX` and the check fails —
written here as `shared + 1 = depth` which has exactly that behaviour. -/
def CheckerDT_Node_isValid (n : NodeDT) : Bool :=
  (match NodeDT.dtParent n with
   | none => true
   | some pp => decide (sharedPrefixDepth (NodeDT.dtPath n) pp + 1 = (NodeDT.dtPath n).length)) &&
  checkerChildLoop (NodeDT.dtPath n) (NodeDT.dtKids n)

mutual

/-- CheckerDT_treeCheck (part_000 lines 113-142): pre-order walk, checking
CheckerDT_Node_isValid at each node. -/
def CheckerDT_treeCheck : NodeDT → Bool
  | .mk q pp ks => CheckerDT_Node_isValid (.mk q pp ks) && CheckerDT_treeCheckL ks

/-- CheckerDT_treeCheck over a children array. -/
def CheckerDT_treeCheckL : List NodeDT → Bool
  | [] => true
  | c :: rest => CheckerDT_treeCheck c && CheckerDT_treeCheckL rest

end

/-- CheckerDT_isValid (part_000 lines 145-184): top-level invariants (an
uninitialized tree must have zero count and NULL root; NULL root iff zero
count) and then the recursive node checks (a NULL root passes them
vacuously). -/
def CheckerDT_isValid (bIsInitialized : Bool) (oNRoot : Option NodeDT) (ulCount : Nat) : Bool :=
  if bIsInitialized = false ∧ ulCount ≠ 0 then false
  else if bIsInitialized = false ∧ oNRoot.isSome then false
  else if oNRoot.isNone ∧ ulCount ≠ 0 then false
  else if oNRoot.isSome ∧ ulCount = 0 then false
  else
    match oNRoot with
    | none => true
    | some r => CheckerDT_treeCheck r

/-- Spec-side per-node invariant, following the words of the spec: the
shared-prefix-depth between the node and its designated parent is the
node's depth minus one; no child shares the node's absolute path; for every
pair of children, the paths differ and appear in strictly ascending
lexicographic order. -/
def SpecNodeOK (n : NodeDT) : Prop :=
  (∀ pp, NodeDT.dtParent n = some pp →
     sharedPrefixDepth (NodeDT.dtPath n) pp + 1 = (NodeDT.dtPath n).length) ∧
  (∀ c ∈ NodeDT.dtKids n, NodeDT.dtPath n ≠ NodeDT.dtPath c) ∧
  ((NodeDT.dtKids n).map NodeDT.dtPath).Pairwise (fun a b => a ≠ b ∧ pathLt a b = true)

mutual

/-- Spec-side tree invariant: every node of the tree satisfies `SpecNodeOK`. -/
def SpecTreeOK : NodeDT → Prop
  | .mk q pp ks => SpecNodeOK (.mk q pp ks) ∧ SpecTreeOKL ks

/-- Spec-side tree invariant over a children array. -/
def SpecTreeOKL : List NodeDT → Prop
  | [] => True
  | c :: rest => SpecTreeOK c ∧ SpecTreeOKL rest

end

/-- Allocation oracle under which every allocation succeeds. -/
def allocOK : Nat → Bool := fun _ => true

/-- The spec scenario, step 1: `init()`. -/
def ftEmpty : FT := FT_init

/-- The spec scenario, step 2: `insertDir("/a")` (component 0 stands for
the name `a`). -/
def ftA : FT := (FT_insertDir ftEmpty [0] allocOK).2

/-- The spec scenario, step 3: `insertDir("/a/b")` (component 1 stands for
`b`). -/
def ftAB : FT := (FT_insertDir ftA [0, 1] allocOK).2

/-- The spec scenario, step 4: `insertFile("/a/b/f.txt", [1,2,3])`
(component 2 stands for `f.txt`, requested contents `[1,2,3]`, length 3). -/
def ftABF : FT := (FT_insertFile ftAB [0, 1, 2] (some [1, 2, 3]) 3 allocOK).2

/-- A tree holding the directory `/a` and the file `/a/b`, built by the
code itself. -/
def ftAfileB : FT := (FT_insertFile ftA [0, 1] (some [7]) 1 allocOK).2

/-- Number of directory nodes in an optional tree. -/
def dirSizeOpt : Option NodeD → Nat
  | none => 0
  | some r => dirSize r

/-- C1: the round-trip property fails on the code.  Inserting the file
`/a/b` with requested contents `[7]` of length 1 into the tree holding the
directory `/a` succeeds, yet `FT_getFileContents` afterwards returns NULL
(not the data) and the stored length is 0 (not 1): FT_insertFile builds the
file node with `NodeF_new`, which sets length 0 and NULL contents, and
never stores `pvContents` / `ulLength` (ft.c lines 484-512, nodef.c lines
54-56). -/
theorem claim_C1_roundtrip_fails :
    (FT_insertFile ftA [0, 1] (some [7]) 1 allocOK).1 = Status.SUCCESS ∧
    FT_getFileContents ftAfileB [0, 1] = none ∧
    FT_statFileLength ftAfileB [0, 1] = some 0 ∧
    (none : Option (List Nat)) ≠ some [7] ∧ (0 : Nat) ≠ 1 := by
  decide

/-- C2: a successful insertFile increments the directory counter by the
number of new directory levels plus one for the file, not by the number of
new directory levels alone: inserting `/a/b/f.txt` into the tree holding
`/a` and `/a/b` creates zero new directories, yet `ulDirCount` goes from 2
to 3 (`ulNewNodes++` after `NodeD_addFileChild`, ft.c line 504), although
`ulDirCount` is documented as counting directories, not files (ft.c lines
30-31). -/
theorem claim_C2_counter_counts_file :
    (FT_insertFile ftAB [0, 1, 2] (some [1, 2, 3]) 3 allocOK).1 = Status.SUCCESS ∧
    ftAB.ulDirCount = 2 ∧
    ftABF.ulDirCount = 3 ∧
    dirSizeOpt ftABF.oNRoot = 2 ∧
    dirSizeOpt ftAB.oNRoot = 2 := by
  decide

/-- C3: the spec scenario breaks the `root = null ⇔ count = 0` invariant.
After `insertDir(/a)`, `insertDir(/a/b)`, `insertFile(/a/b/f.txt)`,
`removeDir(/a)` succeeds, but the counter ends at 1 instead of 0 (the file
was counted on insertion while `NodeD_free` only counts directories) and
`oNRoot` is left set (ft.c lines 366-369 clear it only when the counter
reaches 0, so it dangles on the freed root). -/
theorem claim_C3_root_count_invariant_fails :
    (FT_rmDir ftABF [0]).1 = Status.SUCCESS ∧
    (FT_rmDir ftABF [0]).2.ulDirCount = 1 ∧
    (FT_rmDir ftABF [0]).2.oNRoot.isSome = true := by
  decide

/-- C4: the assert of ft.c line 367 fails on a perfectly valid removal.
Removing the leaf directory `/a/b` from the tree holding `/a` and `/a/b`
succeeds, the freed node's directory-children array has length 0 after
`NodeD_free` (and is read from freed memory), but the updated `ulDirCount`
is 1, so the asserted equality is false and FT_rmDir aborts. -/
theorem claim_C4_rmdir_assert_fails :
    FT_rmDirAssert ftAB [0, 1] = some false ∧
    (FT_rmDir ftAB [0, 1]).1 = Status.SUCCESS ∧
    (FT_rmDir ftAB [0, 1]).2.ulDirCount = 1 := by
  decide

/-- C5: FT_rmDir reports NOT_A_DIRECTORY for a path that is absent
altogether.  In the tree holding only the directory `/a`, removing `/a/b`
(no such node exists, neither directory nor file) returns NOT_A_DIRECTORY
instead of NO_SUCH_PATH: FT_findDir maps every non-exact traversal result
to NOT_A_DIRECTORY (ft.c lines 142-146), contradicting its own
documentation (ft.c line 351-352). -/
theorem claim_C5_rmdir_wrong_status :
    (FT_rmDir ftA [0, 1]).1 = Status.NOT_A_DIRECTORY ∧
    (specFindDirOpt ftA.oNRoot [0, 1]).isSome = false ∧
    specHasFileOpt ftA.oNRoot [0, 1] = false := by
  decide

/-- C6: FT_rmFile reports NO_SUCH_PATH for a path that exists as a
directory.  In the tree holding `/a` and the directory `/a/b`, removing the
file `/a/b` returns NO_SUCH_PATH instead of NOT_A_FILE (the traversal
descends into the directory `/a/b` itself, so the furthest node is not the
parent prefix and FT_findFile answers NO_SUCH_PATH, ft.c lines 196-200;
NOT_A_FILE is never returned anywhere in ft.c), contradicting the
documentation of FT_rmFile (ft.c line 539). -/
theorem claim_C6_rmfile_wrong_status :
    (FT_rmFile ftAB [0, 1]).1 = Status.NO_SUCH_PATH ∧
    (specFindDirOpt ftAB.oNRoot [0, 1]).isSome = true := by
  decide

/-- C7: FT_insertDir on a path that already exists as a file returns
NOT_A_DIRECTORY, not ALREADY_IN_TREE.  In the tree holding the directory
`/a` and the file `/a/b`, `insertDir(/a/b)` hits the FT_containsFile check
of the construction loop on the full target path (ft.c lines 291-298) and
fails with NOT_A_DIRECTORY, contradicting rule 4 of the spec and the
function's own documentation (ft.c line 228); the path that exists as a
file here is the whole target, not a strictly proper prefix. -/
theorem claim_C7_insertdir_on_file_path :
    (FT_insertDir ftAfileB [0, 1] allocOK).1 = Status.NOT_A_DIRECTORY ∧
    specHasFileOpt ftAfileB.oNRoot [0, 1] = true ∧
    (specFindDirOpt ftAfileB.oNRoot [0, 1]).isSome = false := by
  decide

/-- The inner pair loop accepts exactly when child `c1` differs from and
precedes every later child. -/
theorem checkerInnerLoop_iff (c1 : Path_T) (l : List NodeDT) :
    checkerInnerLoop c1 l = true ↔
      ∀ c2 ∈ l, c1 ≠ NodeDT.dtPath c2 ∧ pathLt c1 (NodeDT.dtPath c2) = true := by
  induction l with
  | nil => simp [checkerInnerLoop]
  | cons c2 rest ih =>
      simp only [checkerInnerLoop, Bool.and_eq_true, decide_eq_true_eq, ih,
        List.forall_mem_cons]

/-- The outer child loop accepts exactly when no child carries the node's
path and the children's paths are pairwise distinct and ascending. -/
theorem checkerChildLoop_iff (np : Path_T) (l : List NodeDT) :
    checkerChildLoop np l = true ↔
      (∀ c ∈ l, np ≠ NodeDT.dtPath c) ∧
      (l.map NodeDT.dtPath).Pairwise (fun a b => a ≠ b ∧ pathLt a b = true) := by
  induction l with
  | nil => simp [checkerChildLoop]
  | cons c rest ih =>
      simp only [checkerChildLoop, Bool.and_eq_true, decide_eq_true_eq, ih,
        checkerInnerLoop_iff, List.map_cons, List.pairwise_cons, List.forall_mem_cons,
        List.forall_mem_map]
      tauto

/-- CheckerDT_Node_isValid accepts exactly the per-node spec invariant. -/
theorem checker_node_iff (n : NodeDT) : CheckerDT_Node_isValid n = true ↔ SpecNodeOK n := by
  cases n with
  | mk q pp ks =>
      cases pp with
      | none =>
          simp [CheckerDT_Node_isValid, SpecNodeOK, Bool.and_eq_true,
            checkerChildLoop_iff, NodeDT.dtPath, NodeDT.dtParent, NodeDT.dtKids]
      | some pq =>
          simp only [CheckerDT_Node_isValid, SpecNodeOK, Bool.and_eq_true,
            checkerChildLoop_iff, NodeDT.dtPath, NodeDT.dtParent, NodeDT.dtKids,
            decide_eq_true_eq, Option.some.injEq]
          constructor
          · rintro ⟨h1, h2, h3⟩
            exact ⟨fun pp hpp => hpp ▸ h1, h2, h3⟩
          · rintro ⟨h1, h2, h3⟩
            exact ⟨h1 pq rfl, h2, h3⟩

mutual

/-- CheckerDT_treeCheck accepts exactly when every node in the subtree
satisfies the per-node spec invariant. -/
theorem checker_tree_iff : ∀ n : NodeDT, CheckerDT_treeCheck n = true ↔ SpecTreeOK n
  | .mk q pp ks => by
      simp only [CheckerDT_treeCheck, SpecTreeOK, Bool.and_eq_true, checker_node_iff,
        checker_treeL_iff ks]

/-- List version of `checker_tree_iff`. -/
theorem checker_treeL_iff : ∀ l : List NodeDT, CheckerDT_treeCheckL l = true ↔ SpecTreeOKL l
  | [] => by simp [CheckerDT_treeCheckL, SpecTreeOKL]
  | c :: rest => by
      simp only [CheckerDT_treeCheckL, SpecTreeOKL, Bool.and_eq_true,
        checker_tree_iff c, checker_treeL_iff rest]

end

/-- C10 (amended): CheckerDT_isValid accepts a tree state exactly when the
whole-tree invariants hold (uninitialized forces zero count and a NULL
root; NULL root iff zero count) and every node satisfies the per-node
invariant, where the parent condition is the shared-prefix-depth test
`sharedPrefixDepth(node, parent) = depth(node) − 1` that the checker
actually performs — a condition implied by, but strictly weaker than, the
parent's path being exactly the depth-1-shorter prefix of the node's
path.  The child conditions are as the claim states them: no child shares
the node's path, and children are pairwise distinct and strictly
ascending. -/
theorem claim_C10_checker_iff (b : Bool) (root : Option NodeDT) (cnt : Nat) :
    CheckerDT_isValid b root cnt = true ↔
      ((b = false → cnt = 0 ∧ root = none) ∧
       (root = none → cnt = 0) ∧
       (∀ r, root = some r → cnt ≠ 0 ∧ SpecTreeOK r)) := by
  cases b with
  | false =>
      cases root with
      | none =>
          by_cases hc : cnt = 0 <;>
            simp [CheckerDT_isValid, hc]
      | some r =>
          by_cases hc : cnt = 0 <;>
            simp [CheckerDT_isValid, hc]
  | true =>
      cases root with
      | none =>
          by_cases hc : cnt = 0 <;>
            simp [CheckerDT_isValid, hc]
      | some r =>
          by_cases hc : cnt = 0 <;>
            simp [CheckerDT_isValid, hc, checker_tree_iff]

/-- C10, counterexample to the claim as stated: a tree whose single node
designates the parent path `/a/x` — not the depth-1-shorter prefix `/a` of
the node's path `/a/b` — is accepted by the checker, because the shared
prefix depth (1) still equals the node's depth minus one (components: 0
stands for `a`, 1 for `b`, 9 for `x`). -/
theorem claim_C10_counterexample :
    CheckerDT_isValid true (some (NodeDT.mk [0, 1] (some [0, 9]) [])) 1 = true ∧
    some ([0, 9] : Path_T) ≠ some (([0, 1] : Path_T).take 1) ∧
    sharedPrefixDepth [0, 1] [0, 9] + 1 = ([0, 1] : Path_T).length := by
  decide

/-- The lexicographic order is irreflexive. -/
theorem pathLt_irrefl : ∀ a : Path_T, pathLt a a = false
  | [] => rfl
  | x :: xs => by simp [pathLt, pathLt_irrefl xs]

/-- The lexicographic order separates paths. -/
theorem pathLt_ne {a b : Path_T} (h : pathLt a b = true) : a ≠ b := by
  intro he
  subst he
  rw [pathLt_irrefl a] at h
  exact Bool.false_ne_true h

/-- Taking one component past an append keeps the first block and the next
component. -/
theorem take_append_add (l1 l2 : List Nat) (k : Nat) :
    (l1 ++ l2).take (l1.length + k) = l1 ++ l2.take k := by
  rw [List.take_append_eq_append_take]
  have h1 : l1.take (l1.length + k) = l1 := List.take_of_length_le (by omega)
  have h2 : l1.length + k - l1.length = k := by omega
  rw [h1, h2]

/-- Unfolding of `wfD` at a constructor. -/
theorem wfD_parts {q : Path_T} {ds : List NodeD} {fs : List NodeF}
    (h : wfD (.mk q ds fs) = true) :
    wfDL q ds = true ∧ pairLt (ds.map NodeD.oPPath) = true := by
  unfold wfD at h
  simp only [Bool.and_eq_true] at h
  exact ⟨h.1.1.1, h.1.1.2⟩

/-- A member of a well-formed directory-children array extends the parent
path by one component and is itself well-formed. -/
theorem wfDL_mem {q : Path_T} : ∀ {l : List NodeD}, wfDL q l = true →
    ∀ {d : NodeD}, d ∈ l →
    (NodeD.oPPath d).take q.length = q ∧ (NodeD.oPPath d).length = q.length + 1 ∧ wfD d = true := by
  intro l
  induction l with
  | nil => intro _ d hd; cases hd
  | cons e rest ih =>
      intro h d hd
      unfold wfDL at h
      simp only [Bool.and_eq_true, decide_eq_true_eq] at h
      rcases List.mem_cons.mp hd with he | hm
      · subst he
        exact ⟨h.1.1.1, h.1.1.2, h.1.2⟩
      · exact ih h.2 hm

/-- The structural list search is empty exactly when every member search is. -/
theorem specFindDirL_eq_none : ∀ (l : List NodeD) (w : Path_T),
    specFindDirL l w = none ↔ ∀ d ∈ l, specFindDir d w = none := by
  intro l w
  induction l with
  | nil => simp [specFindDirL]
  | cons d rest ih =>
      unfold specFindDirL
      cases h : specFindDir d w with
      | some m => simp [h]
      | none => simp [h, ih]

mutual

/-- In a well-formed subtree, any directory found by the structural search
carries a path that is the subtree root's path or strictly extends it. -/
theorem specFindDir_prefix : ∀ (n : NodeD) (w : Path_T) (m : NodeD),
    wfD n = true → specFindDir n w = some m →
    w = NodeD.oPPath n ∨
      ((NodeD.oPPath n).length < w.length ∧ w.take (NodeD.oPPath n).length = NodeD.oPPath n)
  | .mk q ds fs, w, m => by
      intro hwf hfind
      unfold specFindDir at hfind
      by_cases hq : q = w
      · left
        simpa [NodeD.oPPath] using hq.symm
      · simp only [hq, if_false] at hfind
        right
        simpa [NodeD.oPPath] using specFindDirL_prefix q ds w m (wfD_parts hwf).1 hfind

/-- List version of `specFindDir_prefix`: anything found below a
well-formed children array of a node with path `q` strictly extends `q`. -/
theorem specFindDirL_prefix : ∀ (q : Path_T) (l : List NodeD) (w : Path_T) (m : NodeD),
    wfDL q l = true → specFindDirL l w = some m →
    q.length < w.length ∧ w.take q.length = q
  | q, [], w, m => by intro _ h; exact absurd h (by simp [specFindDirL])
  | q, d :: rest, w, m => by
      intro hwf hfind
      unfold wfDL at hwf
      simp only [Bool.and_eq_true, decide_eq_true_eq] at hwf
      obtain ⟨⟨⟨htake, hlen⟩, hwfd⟩, hrest⟩ := hwf
      unfold specFindDirL at hfind
      cases hd : specFindDir d w with
      | some m2 =>
          rw [hd] at hfind
          rcases specFindDir_prefix d w m2 hwfd hd with heq | ⟨hlt, htk⟩
          · subst heq
            exact ⟨by omega, htake⟩
          · refine ⟨by omega, ?_⟩
            have h2 : (w.take (NodeD.oPPath d).length).take q.length = w.take q.length := by
              rw [List.take_take]
              congr 1
              omega
            rw [← h2, htk, htake]
      | none =>
          rw [hd] at hfind
          exact specFindDirL_prefix q rest w m hrest hfind

end

/-- One component past the first block of an append. -/
theorem take_one_comp (q : Path_T) (s : Nat) (e : List Nat) :
    (q ++ (s :: e)).take (q.length + 1) = q ++ [s] := by
  rw [take_append_add]
  rfl

/-- A well-formed child of a node with path `q` whose own path is not the
(q.length+1)-component prefix of the target contains no directory carrying
the target path. -/
theorem specFindDir_child_none {q : Path_T} {d : NodeD} {w : Path_T}
    (hwfd : wfD d = true) (hlen : (NodeD.oPPath d).length = q.length + 1)
    (hne : NodeD.oPPath d ≠ w.take (q.length + 1)) :
    specFindDir d w = none := by
  cases h : specFindDir d w with
  | none => rfl
  | some m =>
      exfalso
      rcases specFindDir_prefix d w m hwfd h with heq | ⟨hlt, htk⟩
      · apply hne
        subst heq
        rw [List.take_of_length_le (by omega)]
      · apply hne
        rw [← hlen]
        exact htk.symm

/-- If the bsearch finds the child holding the key path and every child off
the key contributes nothing, the structural list search is decided by the
found child (the sorted-sibling invariant rules out a second child with the
key path). -/
theorem specFindDirL_focus (w cpath : Path_T) (c : NodeD) :
    ∀ l : List NodeD,
    l.find? (fun d => decide (NodeD.oPPath d = cpath)) = some c →
    pairLt (l.map NodeD.oPPath) = true →
    (∀ d ∈ l, NodeD.oPPath d ≠ cpath → specFindDir d w = none) →
    specFindDirL l w = specFindDir c w := by
  intro l
  induction l with
  | nil => intro h; simp at h
  | cons d rest ih =>
      intro hfind hpair hrest
      simp only [List.map_cons, pairLt, Bool.and_eq_true, List.all_eq_true] at hpair
      by_cases hd : NodeD.oPPath d = cpath
      · have hc : c = d := by
          rw [List.find?_cons_of_pos _ (by simpa using hd)] at hfind
          exact (Option.some.injEq _ _ ▸ hfind).symm
        subst hc
        unfold specFindDirL
        cases hsd : specFindDir c w with
        | some m => rfl
        | none =>
            rw [(specFindDirL_eq_none rest w).mpr]
            intro e he
            apply hrest e (List.mem_cons_of_mem _ he)
            intro heq
            have hlt := hpair.1 (NodeD.oPPath e) (List.mem_map_of_mem NodeD.oPPath he)
            exact pathLt_ne hlt (hd.trans heq.symm)
      · have hdn : specFindDir d w = none := hrest d (List.mem_cons_self _ _) hd
        rw [List.find?_cons_of_neg _ (by simpa using hd)] at hfind
        unfold specFindDirL
        rw [hdn]
        exact ih hfind hpair.2 (fun e he hne => hrest e (List.mem_cons_of_mem _ he) hne)

/-- Master property of the FT_traversePath loop: starting at a well-formed
node whose path is `qc` with remaining target components `rem`, the loop
consumes some prefix `dk` of `rem`; it stops at the directory whose path is
`qc ++ dk`, that directory is the one the structural search finds at that
prefix, and no directory exists at any strictly deeper prefix of the
target (the loop never looks at file children). -/
theorem FT_descend_spec : ∀ (rem : List Nat) (n : NodeD) (qc : Path_T),
    wfD n = true → NodeD.oPPath n = qc →
    ∃ dk rk, dk ++ rk = rem ∧
      NodeD.oPPath (FT_descend n qc rem) = qc ++ dk ∧
      specFindDir n (qc ++ dk) = some (FT_descend n qc rem) ∧
      (∀ e1 e2, e1 ++ e2 = rk → e1 ≠ [] → specFindDir n (qc ++ (dk ++ e1)) = none) := by
  intro rem
  induction rem with
  | nil =>
      intro n qc hwf hpath
      refine ⟨[], [], rfl, ?_, ?_, ?_⟩
      · simpa [FT_descend] using hpath
      · cases n with
        | mk q ds fs =>
            simp only [NodeD.oPPath] at hpath
            subst hpath
            simp [FT_descend, specFindDir]
      · intro e1 e2 h he1
        exact absurd (List.append_eq_nil.mp h).1 he1
  | cons s rem' ih =>
      intro n qc hwf hpath
      cases n with
      | mk q ds fs =>
      simp only [NodeD.oPPath] at hpath
      subst hpath
      have hwfl := (wfD_parts hwf).1
      have hpair := (wfD_parts hwf).2
      cases hlk : lookupDirChild (.mk q ds fs) (q ++ [s]) with
      | none =>
          have hnone : ∀ d ∈ ds, ¬ (NodeD.oPPath d = q ++ [s]) := by
            simpa [lookupDirChild, NodeD.oDDirChildren, List.find?_eq_none] using hlk
          refine ⟨[], s :: rem', rfl, ?_, ?_, ?_⟩
          · simp [FT_descend, hlk, NodeD.oPPath]
          · simp [FT_descend, hlk, specFindDir]
          · intro e1 e2 hsp he1
            cases e1 with
            | nil => exact absurd rfl he1
            | cons x e1' =>
                have hx : x = s ∧ e1' ++ e2 = rem' := by
                  constructor
                  · exact (List.cons.injEq _ _ _ _ ▸ hsp).1
                  · exact (List.cons.injEq _ _ _ _ ▸ hsp).2
                obtain ⟨hx1, _⟩ := hx
                subst hx1
                have hqne : q ≠ q ++ ([] ++ (x :: e1')) := by simp
                unfold specFindDir
                rw [if_neg hqne]
                apply (specFindDirL_eq_none ds _).mpr
                intro d hdm
                have hc := wfDL_mem hwfl hdm
                apply specFindDir_child_none hc.2.2 hc.2.1
                rw [List.nil_append, take_one_comp]
                exact hnone d hdm
      | some c =>
          have hfind : ds.find? (fun d => decide (NodeD.oPPath d = q ++ [s])) = some c := by
            simpa [lookupDirChild, NodeD.oDDirChildren] using hlk
          have hcmem : c ∈ ds := List.mem_of_find?_eq_some hfind
          have hcpath : NodeD.oPPath c = q ++ [s] := by
            simpa using List.find?_some hfind
          have hc := wfDL_mem hwfl hcmem
          obtain ⟨dk', rk', hsplit, hdpath, hdfind, hdeep⟩ := ih c (q ++ [s]) hc.2.2 hcpath
          have hstep : FT_descend (.mk q ds fs) q (s :: rem') = FT_descend c (q ++ [s]) rem' := by
            simp [FT_descend, hlk]
          refine ⟨s :: dk', rk', by simpa using hsplit, ?_, ?_, ?_⟩
          · rw [hstep, hdpath]
            simp
          · have hqne : q ≠ q ++ (s :: dk') := by simp
            show specFindDir (.mk q ds fs) (q ++ (s :: dk')) = _
            unfold specFindDir
            rw [if_neg hqne]
            rw [specFindDirL_focus (q ++ (s :: dk')) (q ++ [s]) c ds hfind hpair ?hoff]
            case hoff =>
              intro d hdm hne
              have hd := wfDL_mem hwfl hdm
              apply specFindDir_child_none hd.2.2 hd.2.1
              rw [take_one_comp]
              exact hne
            rw [hstep]
            have hassoc : q ++ (s :: dk') = (q ++ [s]) ++ dk' := by simp
            rw [hassoc]
            exact hdfind
          · intro e1 e2 hsp he1
            have hqne : q ≠ q ++ ((s :: dk') ++ e1) := by simp
            show specFindDir (.mk q ds fs) (q ++ ((s :: dk') ++ e1)) = none
            unfold specFindDir
            rw [if_neg hqne]
            have harr : q ++ ((s :: dk') ++ e1) = q ++ (s :: (dk' ++ e1)) := by simp
            rw [harr]
            rw [specFindDirL_focus (q ++ (s :: (dk' ++ e1))) (q ++ [s]) c ds hfind hpair ?hoff2]
            case hoff2 =>
              intro d hdm hne
              have hd := wfDL_mem hwfl hdm
              apply specFindDir_child_none hd.2.2 hd.2.1
              rw [take_one_comp]
              exact hne
            have hassoc2 : q ++ (s :: (dk' ++ e1)) = (q ++ [s]) ++ (dk' ++ e1) := by simp
            rw [hassoc2]
            exact hdeep e1 e2 hsp he1

/-- C9: the contract of FT_traversePath.  With a NULL root it succeeds with
a NULL furthest node; with a root whose path differs from the depth-1
prefix of the target it fails with CONFLICTING_PATH; otherwise it succeeds
with the deepest existing directory node on the root-to-target prefix
chain: the returned node's path is `p.take 1 ++ dk` for the consumed
components `dk`, the structural directory search (which never inspects
file children — files are walk-terminal) finds exactly that node at that
prefix, and no directory node exists at any strictly longer prefix of the
target. -/
theorem claim_C9_traverse_contract (t : Option NodeD) (p : Path_T) (hwf : wfOpt t = true) :
    (t = none → FT_traversePath t p = .ok none) ∧
    (∀ r, t = some r → NodeD.oPPath r ≠ p.take 1 →
      FT_traversePath t p = .error Status.CONFLICTING_PATH) ∧
    (∀ r, t = some r → NodeD.oPPath r = p.take 1 →
      ∃ m dk rk, dk ++ rk = p.drop 1 ∧
        FT_traversePath t p = .ok (some m) ∧
        NodeD.oPPath m = p.take 1 ++ dk ∧
        specFindDir r (p.take 1 ++ dk) = some m ∧
        (∀ e1 e2, e1 ++ e2 = rk → e1 ≠ [] →
          specFindDir r (p.take 1 ++ (dk ++ e1)) = none)) := by
  refine ⟨?_, ?_, ?_⟩
  · intro ht
    subst ht
    rfl
  · intro r ht hne
    subst ht
    simp [FT_traversePath, hne]
  · intro r ht hroot
    subst ht
    have hwfr : wfD r = true := by simpa [wfOpt] using hwf
    obtain ⟨dk, rk, hsplit, hdpath, hdfind, hdeep⟩ :=
      FT_descend_spec (p.drop 1) r (p.take 1) hwfr hroot
    exact ⟨FT_descend r (p.take 1) (p.drop 1), dk, rk, hsplit,
      by simp [FT_traversePath, hroot], hdpath, hdfind, hdeep⟩

/-- Witness for C9 at a concrete input: the tree holding `/a` and `/a/b`
with target `/a/b/c/d` (components 0,1,2,3). -/
theorem claim_C9_traverse_contract_witness :
    wfOpt ftAB.oNRoot = true ∧
    ((ftAB.oNRoot = none → FT_traversePath ftAB.oNRoot [0, 1, 2, 3] = .ok none) ∧
     (∀ r, ftAB.oNRoot = some r → NodeD.oPPath r ≠ ([0, 1, 2, 3] : Path_T).take 1 →
       FT_traversePath ftAB.oNRoot [0, 1, 2, 3] = .error Status.CONFLICTING_PATH) ∧
     (∀ r, ftAB.oNRoot = some r → NodeD.oPPath r = ([0, 1, 2, 3] : Path_T).take 1 →
       ∃ m dk rk, dk ++ rk = ([0, 1, 2, 3] : Path_T).drop 1 ∧
         FT_traversePath ftAB.oNRoot [0, 1, 2, 3] = .ok (some m) ∧
         NodeD.oPPath m = ([0, 1, 2, 3] : Path_T).take 1 ++ dk ∧
         specFindDir r (([0, 1, 2, 3] : Path_T).take 1 ++ dk) = some m ∧
         (∀ e1 e2, e1 ++ e2 = rk → e1 ≠ [] →
           specFindDir r (([0, 1, 2, 3] : Path_T).take 1 ++ (dk ++ e1)) = none))) :=
  ⟨by decide, claim_C9_traverse_contract ftAB.oNRoot [0, 1, 2, 3] (by decide)⟩

/-- Attaching below a node does not change the node's own path. -/
theorem attachSub_path : ∀ (n : NodeD) (restA : List Nat) (c : NodeD),
    NodeD.oPPath (attachSub n restA c) = NodeD.oPPath n
  | .mk _ _ _, [], _ => rfl
  | .mk _ _ _, _ :: _, _ => rfl

/-- The chain's first node carries the path it was started with. -/
theorem chainD_path : ∀ (q : Path_T) (rest : List Nat), NodeD.oPPath (chainD q rest) = q
  | _, [] => rfl
  | _, _ :: _ => rfl

/-- An absent path is absent from the node itself and from every child. -/
theorem specFindDir_none_parts {q : Path_T} {ds : List NodeD} {fs : List NodeF} {w : Path_T}
    (h : specFindDir (.mk q ds fs) w = none) :
    q ≠ w ∧ ∀ d ∈ ds, specFindDir d w = none := by
  unfold specFindDir at h
  by_cases hq : q = w
  · rw [if_pos hq] at h
    cases h
  · rw [if_neg hq] at h
    exact ⟨hq, (specFindDirL_eq_none ds w).mp h⟩

/-- A node at which the search misses does not itself carry the path. -/
theorem specFindDir_ne_of_none : ∀ {d : NodeD} {w : Path_T},
    specFindDir d w = none → NodeD.oPPath d ≠ w := by
  intro d w h
  cases d with
  | mk q ds fs =>
      simpa [NodeD.oPPath] using (specFindDir_none_parts h).1

/-- Filtering the freshly inserted element back out of a sorted insertion
restores the original array, provided the original elements all pass the
filter and the new element does not. -/
theorem filter_insertDirSorted (pd : NodeD → Bool) (c : NodeD) :
    ∀ ds : List NodeD, (∀ d ∈ ds, pd d = true) → pd c = false →
    (insertDirSorted c ds).filter pd = ds := by
  intro ds
  induction ds with
  | nil =>
      intro _ hc
      simp [insertDirSorted, List.filter, hc]
  | cons d rest ih =>
      intro hall hc
      unfold insertDirSorted
      by_cases hlt : pathLt (NodeD.oPPath d) (NodeD.oPPath c) = true
      · rw [if_pos hlt]
        rw [List.filter_cons_of_pos (hall d (List.mem_cons_self _ _))]
        rw [ih (fun e he => hall e (List.mem_cons_of_mem _ he)) hc]
      · rw [if_neg hlt]
        rw [List.filter_cons_of_neg (by simp [hc])]
        exact List.filter_eq_self.mpr hall

/-- Rollback identity at node level: linking a fresh subtree `c` below the
descendant reached by `restA` and then detaching the node with `c`'s path
restores the original tree, as long as no directory with that path existed
anywhere before. -/
theorem removeSub_attachSub : ∀ (restA : List Nat) (n : NodeD) (c : NodeD) (s0 : Nat),
    specFindDir n (NodeD.oPPath c) = none →
    NodeD.oPPath c = NodeD.oPPath n ++ restA ++ [s0] →
    removeSub (attachSub n restA c) (restA ++ [s0]) = n := by
  intro restA
  induction restA with
  | nil =>
      intro n c s0 habs hpath
      cases n with
      | mk q ds fs =>
          rw [NodeD.oPPath_mk, List.append_nil] at hpath
          obtain ⟨hqne, hkids⟩ := specFindDir_none_parts habs
          show removeSub (.mk q (insertDirSorted c ds) fs) [s0] = .mk q ds fs
          unfold removeSub
          congr 1
          apply filter_insertDirSorted
          · intro d hd
            have hne := specFindDir_ne_of_none (hkids d hd)
            simp only [decide_eq_true_eq]
            rw [← hpath]
            exact hne
          · simp only [decide_eq_false_iff_not, not_not]
            exact hpath
  | cons s restA' ih =>
      intro n c s0 habs hpath
      cases n with
      | mk q ds fs =>
          rw [NodeD.oPPath_mk] at hpath
          obtain ⟨hqne, hkids⟩ := specFindDir_none_parts habs
          obtain ⟨y, l, hsh⟩ : ∃ y l, restA' ++ [s0] = y :: l := by
            cases h : restA' ++ [s0] with
            | nil => exact absurd h (by simp)
            | cons y l => exact ⟨y, l, rfl⟩
          have hgoal : (s :: restA') ++ [s0] = s :: y :: l := by
            rw [List.cons_append, hsh]
          rw [hgoal]
          show removeSub (.mk q (ds.map fun d =>
              if NodeD.oPPath d = q ++ [s] then attachSub d restA' c else d) fs)
              (s :: y :: l) = .mk q ds fs
          unfold removeSub
          congr 1
          rw [List.map_map]
          have hid : ∀ d ∈ ds,
              ((fun d => if NodeD.oPPath d = q ++ [s] then removeSub d (y :: l) else d) ∘
               (fun d => if NodeD.oPPath d = q ++ [s] then attachSub d restA' c else d)) d = d := by
            intro d hd
            simp only [Function.comp]
            by_cases hdp : NodeD.oPPath d = q ++ [s]
            · rw [if_pos hdp, if_pos (by rw [attachSub_path, hdp])]
              rw [← hsh]
              apply ih d c s0 (hkids d hd)
              rw [hpath, hdp]
              simp
            · rw [if_neg hdp, if_neg hdp]
          rw [List.map_congr_left hid]
          simp

/-- In the new-root case the heap is untouched during construction, so the
failure handler leaves it unchanged. -/
theorem rollbackOf_none_ancestor (t0 : Option NodeD) (done : List Nat) :
    rollbackOf t0 none done = t0 := by
  cases done <;> rfl

/-- The failure handler of the construction loop restores the original
heap: detaching the first new node undoes the linking of the whole partial
chain, whenever no directory with the chain root's path pre-existed. -/
theorem rollbackOf_eq (t0 : Option NodeD) (ap : Path_T) (done : List Nat)
    (h : ∀ r, t0 = some r →
      (NodeD.oPPath r).length ≤ ap.length ∧
      ap.take (NodeD.oPPath r).length = NodeD.oPPath r ∧
      (∀ c0 drest, done = c0 :: drest → specFindDir r (ap ++ [c0]) = none)) :
    rollbackOf t0 (some ap) done = t0 := by
  cases done with
  | nil => rfl
  | cons c0 drest =>
      cases t0 with
      | none => rfl
      | some r =>
          obtain ⟨hlen, hpre, habs⟩ := h r rfl
          have habs0 := habs c0 drest rfl
          show removeAt (attachAt (some r) ap (chainD (ap ++ [c0]) drest)) (ap ++ [c0]) = some r
          have h1 : attachAt (some r) ap (chainD (ap ++ [c0]) drest) =
              some (attachSub r (ap.drop (NodeD.oPPath r).length) (chainD (ap ++ [c0]) drest)) := rfl
          rw [h1]
          have h2 : ∀ n : NodeD, removeAt (some n) (ap ++ [c0]) =
              some (removeSub n ((ap ++ [c0]).drop (NodeD.oPPath n).length)) := fun n => rfl
          rw [h2, attachSub_path]
          have hdrop : (ap ++ [c0]).drop (NodeD.oPPath r).length =
              ap.drop (NodeD.oPPath r).length ++ [c0] := by
            rw [List.drop_append_eq_append_drop]
            have : (NodeD.oPPath r).length - ap.length = 0 := by omega
            rw [this]
            rfl
          rw [hdrop]
          congr 1
          apply removeSub_attachSub
          · rw [chainD_path]
            exact habs0
          · rw [chainD_path]
            have : NodeD.oPPath r ++ ap.drop (NodeD.oPPath r).length = ap := by
              nth_rewrite 2 [← List.take_append_drop (NodeD.oPPath r).length ap]
              rw [hpre]
            rw [this]

/-- On a MEMORY_ERROR outcome the FT_insertDir construction loop hands
back the original heap, provided the failure handler restores it from every
reachable partial chain. -/
theorem insertDirGo_memerr (t0 : Option NodeD) (a : Option Path_T) (alloc : Nat → Bool)
    (total : List Nat)
    (H : ∀ done', (∃ r', done' ++ r' = total) → rollbackOf t0 a done' = t0) :
    ∀ (rem : List Nat) (i : Nat) (qc : Path_T) (done : List Nat), done ++ rem = total →
    (FT_insertDirGo t0 a alloc i qc done rem).1 = Status.MEMORY_ERROR →
    (FT_insertDirGo t0 a alloc i qc done rem).2.1 = t0 := by
  intro rem
  induction rem with
  | nil =>
      intro i qc done hinv hs
      exact absurd hs (by simp [FT_insertDirGo])
  | cons s rem' ih =>
      intro i qc done hinv hs
      unfold FT_insertDirGo at hs ⊢
      by_cases h1 : containsFileT (heapOf t0 a done) (qc ++ [s]) = true
      · rw [if_pos h1] at hs
        exact absurd hs (by simp)
      · rw [if_neg h1] at hs
        rw [if_neg h1]
        by_cases h2 : alloc i = false
        · rw [if_pos h2] at hs
          rw [if_pos h2]
          exact H done ⟨s :: rem', hinv⟩
        · rw [if_neg h2] at hs
          rw [if_neg h2]
          exact ih (i + 1) (qc ++ [s]) (done ++ [s]) (by simpa using hinv) hs

/-- On a MEMORY_ERROR outcome the FT_insertFile construction loop and file
epilogue hand back the original heap, under the same proviso. -/
theorem insertFileGo_memerr (t0 : Option NodeD) (a : Option Path_T) (p : Path_T)
    (alloc : Nat → Bool) (total : List Nat)
    (H : ∀ done', (∃ r', done' ++ r' = total) → rollbackOf t0 a done' = t0) :
    ∀ (rem : List Nat) (i : Nat) (qc : Path_T) (done : List Nat), done ++ rem = total →
    (FT_insertFileGo t0 a p alloc i qc done rem).1 = Status.MEMORY_ERROR →
    (FT_insertFileGo t0 a p alloc i qc done rem).2.1 = t0 := by
  intro rem
  induction rem with
  | nil =>
      intro i qc done hinv hs
      unfold FT_insertFileGo at hs ⊢
      by_cases h0 : p.length ≤ 1
      · rw [if_pos h0] at hs
        exact absurd hs (by simp)
      · rw [if_neg h0] at hs
        rw [if_neg h0]
        by_cases h2 : alloc i = false
        · rw [if_pos h2] at hs
          rw [if_pos h2]
          exact H done ⟨[], hinv⟩
        · rw [if_neg h2] at hs
          rw [if_neg h2]
          by_cases h3 : hasFileChildAt (heapOf t0 a done) qc p = true
          · rw [if_pos h3] at hs
            exact absurd hs (by simp)
          · rw [if_neg h3] at hs
            rw [if_neg h3]
            by_cases h4 : alloc (i + 1) = false
            · rw [if_pos h4] at hs
              rw [if_pos h4]
              exact H done ⟨[], hinv⟩
            · rw [if_neg h4] at hs
              exact absurd hs (by simp)
  | cons s rem' ih =>
      intro i qc done hinv hs
      cases rem' with
      | nil =>
          unfold FT_insertFileGo at hs ⊢
          by_cases h0 : p.length ≤ 1
          · rw [if_pos h0] at hs
            exact absurd hs (by simp)
          · rw [if_neg h0] at hs
            rw [if_neg h0]
            by_cases h2 : alloc i = false
            · rw [if_pos h2] at hs
              rw [if_pos h2]
              exact H done ⟨[s], hinv⟩
            · rw [if_neg h2] at hs
              rw [if_neg h2]
              by_cases h3 : hasFileChildAt (heapOf t0 a done) qc p = true
              · rw [if_pos h3] at hs
                exact absurd hs (by simp)
              · rw [if_neg h3] at hs
                rw [if_neg h3]
                by_cases h4 : alloc (i + 1) = false
                · rw [if_pos h4] at hs
                  rw [if_pos h4]
                  exact H done ⟨[s], hinv⟩
                · rw [if_neg h4] at hs
                  exact absurd hs (by simp)
      | cons s2 rem'' =>
          unfold FT_insertFileGo at hs ⊢
          by_cases h1 : containsFileT (heapOf t0 a done) (qc ++ [s]) = true
          · rw [if_pos h1] at hs
            exact absurd hs (by simp)
          · rw [if_neg h1] at hs
            rw [if_neg h1]
            by_cases h2 : alloc i = false
            · rw [if_pos h2] at hs
              rw [if_pos h2]
              exact H done ⟨s :: s2 :: rem'', hinv⟩
            · rw [if_neg h2] at hs
              rw [if_neg h2]
              exact ih (i + 1) (qc ++ [s]) (done ++ [s]) (by simpa using hinv) hs

/-- Dropping past a clipped take is dropping past the clip point. -/
theorem drop_take_length (p : Path_T) (n : Nat) : p.drop (p.take n).length = p.drop n := by
  rw [List.length_take]
  rcases le_total n p.length with h | h
  · rw [Nat.min_eq_left h]
  · rw [Nat.min_eq_right h, List.drop_length, List.drop_of_length_le h]

/-- After the traversal stops, the failure handler of the construction
loop restores the heap from every partial chain the loop can have built:
the traversal's deepest node guarantees that no directory already carries
the first new level's path. -/
theorem rollback_ready (r : NodeD) (p : Path_T) (hwfr : wfD r = true)
    (hroot : NodeD.oPPath r = p.take 1) :
    ∀ done', (∃ r', done' ++ r' =
        p.drop (NodeD.oPPath (FT_descend r (p.take 1) (p.drop 1))).length) →
      rollbackOf (some r) (some (NodeD.oPPath (FT_descend r (p.take 1) (p.drop 1)))) done' =
        some r := by
  obtain ⟨dk, rk, hsplit, hdpath, hdfind, hdeep⟩ :=
    FT_descend_spec (p.drop 1) r (p.take 1) hwfr hroot
  have hrk : p.drop (NodeD.oPPath (FT_descend r (p.take 1) (p.drop 1))).length = rk := by
    rw [hdpath, List.length_append]
    rw [← List.drop_drop, drop_take_length, ← hsplit, List.drop_left]
  intro done' hex
  apply rollbackOf_eq
  intro r0 hr0
  cases hr0
  refine ⟨?_, ?_, ?_⟩
  · rw [hdpath, hroot]
    simp
  · rw [hdpath, hroot, List.take_left]
  · intro c0 drest hdone
    obtain ⟨r', hr'⟩ := hex
    rw [hdone, hrk] at hr'
    have hform : [c0] ++ (drest ++ r') = rk := by simpa using hr'
    have hnone := hdeep [c0] (drest ++ r') hform (by simp)
    rw [hdpath]
    simpa [List.append_assoc] using hnone

/-- A MEMORY_ERROR out of the shared insertion epilogue comes from the
loop, and the resulting state carries the loop's tree with an untouched
counter. -/
theorem finishInsert_memerr (ft : FT) (res : Status × Option NodeD × Nat)
    (hs : (finishInsert ft res).1 = Status.MEMORY_ERROR) :
    res.1 = Status.MEMORY_ERROR ∧
    (finishInsert ft res).2 = { ft with oNRoot := res.2.1 } := by
  rcases res with ⟨s, t, k⟩
  cases s <;> simp [finishInsert] at hs ⊢

/-- Writing a structure field back to itself is the identity. -/
theorem FT_set_root_self (ft : FT) : { ft with oNRoot := ft.oNRoot } = ft := rfl

/-- C8: insertion is atomic on allocation failure.  Whenever FT_insertDir
or FT_insertFile returns MEMORY_ERROR, every directory node created during
the call has been unwound and the whole FT state — root pointer, counter
and all child collections — equals the pre-call state. -/
theorem claim_C8_insert_atomic (ft : FT) (p : Path_T) (co : Option (List Nat)) (len : Nat)
    (alloc : Nat → Bool) (hwf : wfOpt ft.oNRoot = true) :
    ((FT_insertDir ft p alloc).1 = Status.MEMORY_ERROR → (FT_insertDir ft p alloc).2 = ft) ∧
    ((FT_insertFile ft p co len alloc).1 = Status.MEMORY_ERROR →
      (FT_insertFile ft p co len alloc).2 = ft) := by
  constructor
  · intro hs
    unfold FT_insertDir at hs ⊢
    by_cases hinit : ft.bIsInitialized = false
    · rw [if_pos hinit] at hs
      exact absurd hs (by simp)
    · rw [if_neg hinit] at hs ⊢
      cases htr : FT_traversePath ft.oNRoot p with
      | error s' => rfl
      | ok ocurr =>
          rw [htr] at hs
          cases ocurr with
          | none =>
              cases hrt : ft.oNRoot with
              | some r => rfl
              | none =>
                  rw [hrt] at hs
                  have hs' : (finishInsert ft (FT_insertDirGo none none alloc 1 [] [] p)).1 =
                      Status.MEMORY_ERROR := hs
                  show (finishInsert ft (FT_insertDirGo none none alloc 1 [] [] p)).2 = ft
                  obtain ⟨hgo, hfin⟩ := finishInsert_memerr _ _ hs'
                  rw [hfin]
                  have ht2 := insertDirGo_memerr none none alloc p
                    (fun done' _ => rollbackOf_none_ancestor none done') p 1 [] [] rfl hgo
                  rw [ht2, ← hrt, FT_set_root_self]
          | some curr =>
              have hs' : (if (NodeD.oPPath curr).length + 1 = p.length + 1 ∧
                    p = NodeD.oPPath curr then (Status.ALREADY_IN_TREE, ft)
                  else finishInsert ft (FT_insertDirGo ft.oNRoot (some (NodeD.oPPath curr))
                    alloc ((NodeD.oPPath curr).length + 1) (NodeD.oPPath curr) []
                    (p.drop (NodeD.oPPath curr).length))).1 = Status.MEMORY_ERROR := hs
              show (if (NodeD.oPPath curr).length + 1 = p.length + 1 ∧
                    p = NodeD.oPPath curr then (Status.ALREADY_IN_TREE, ft)
                  else finishInsert ft (FT_insertDirGo ft.oNRoot (some (NodeD.oPPath curr))
                    alloc ((NodeD.oPPath curr).length + 1) (NodeD.oPPath curr) []
                    (p.drop (NodeD.oPPath curr).length))).2 = ft
              by_cases hal : (NodeD.oPPath curr).length + 1 = p.length + 1 ∧ p = NodeD.oPPath curr
              · rw [if_pos hal] at hs'
                exact absurd hs' (by simp)
              · rw [if_neg hal] at hs' ⊢
                cases hrt : ft.oNRoot with
                | none =>
                    rw [hrt] at htr
                    exact absurd (Except.ok.inj htr) (by simp)
                | some r =>
                    rw [← hrt]
                    have hwfr : wfD r = true := by
                      rw [hrt] at hwf
                      simpa [wfOpt] using hwf
                    rw [hrt] at htr
                    have htr' : (if NodeD.oPPath r = p.take 1 then
                        Except.ok (some (FT_descend r (p.take 1) (p.drop 1)))
                      else (Except.error Status.CONFLICTING_PATH :
                        Except Status (Option NodeD))) = Except.ok (some curr) := htr
                    by_cases hb : NodeD.oPPath r = p.take 1
                    · rw [if_pos hb] at htr'
                      have hcurr : curr = FT_descend r (p.take 1) (p.drop 1) :=
                        (Option.some.inj (Except.ok.inj htr')).symm
                      obtain ⟨hgo, hfin⟩ := finishInsert_memerr _ _ hs'
                      rw [hfin]
                      have ht2 := insertDirGo_memerr ft.oNRoot (some (NodeD.oPPath curr)) alloc
                        (p.drop (NodeD.oPPath curr).length)
                        (by
                          intro done' hex
                          rw [hrt]
                          rw [hcurr] at hex ⊢
                          exact rollback_ready r p hwfr hb done' hex)
                        (p.drop (NodeD.oPPath curr).length)
                        ((NodeD.oPPath curr).length + 1) (NodeD.oPPath curr) [] rfl hgo
                      rw [ht2, FT_set_root_self]
                    · rw [if_neg hb] at htr'
                      exact absurd htr' (by simp)
  · intro hs
    unfold FT_insertFile at hs ⊢
    by_cases hinit : ft.bIsInitialized = false
    · rw [if_pos hinit] at hs
      exact absurd hs (by simp)
    · rw [if_neg hinit] at hs ⊢
      by_cases hone : p.length = 1
      · rw [if_pos hone] at hs
        exact absurd hs (by simp)
      · rw [if_neg hone] at hs ⊢
        cases htr : FT_traversePath ft.oNRoot p with
        | error s' => rfl
        | ok ocurr =>
            rw [htr] at hs
            cases ocurr with
            | none =>
                cases hrt : ft.oNRoot with
                | some r => rfl
                | none =>
                    rw [hrt] at hs
                    have hs' : (finishInsert ft
                        (FT_insertFileGo none none p alloc 1 [] [] p)).1 =
                        Status.MEMORY_ERROR := hs
                    show (finishInsert ft (FT_insertFileGo none none p alloc 1 [] [] p)).2 = ft
                    obtain ⟨hgo, hfin⟩ := finishInsert_memerr _ _ hs'
                    rw [hfin]
                    have ht2 := insertFileGo_memerr none none p alloc p
                      (fun done' _ => rollbackOf_none_ancestor none done') p 1 [] [] rfl hgo
                    rw [ht2, ← hrt, FT_set_root_self]
            | some curr =>
                have hs' : (if (lookupFileChild curr p).isSome = true ∨
                      (lookupDirChild curr p).isSome = true ∨ NodeD.oPPath curr = p then
                      (Status.ALREADY_IN_TREE, ft)
                    else finishInsert ft (FT_insertFileGo ft.oNRoot (some (NodeD.oPPath curr))
                      p alloc ((NodeD.oPPath curr).length + 1) (NodeD.oPPath curr) []
                      (p.drop (NodeD.oPPath curr).length))).1 = Status.MEMORY_ERROR := hs
                show (if (lookupFileChild curr p).isSome = true ∨
                      (lookupDirChild curr p).isSome = true ∨ NodeD.oPPath curr = p then
                      (Status.ALREADY_IN_TREE, ft)
                    else finishInsert ft (FT_insertFileGo ft.oNRoot (some (NodeD.oPPath curr))
                      p alloc ((NodeD.oPPath curr).length + 1) (NodeD.oPPath curr) []
                      (p.drop (NodeD.oPPath curr).length))).2 = ft
                by_cases hal : (lookupFileChild curr p).isSome = true ∨
                    (lookupDirChild curr p).isSome = true ∨ NodeD.oPPath curr = p
                · rw [if_pos hal] at hs'
                  exact absurd hs' (by simp)
                · rw [if_neg hal] at hs' ⊢
                  cases hrt : ft.oNRoot with
                  | none =>
                      rw [hrt] at htr
                      exact absurd (Except.ok.inj htr) (by simp)
                  | some r =>
                      rw [← hrt]
                      have hwfr : wfD r = true := by
                        rw [hrt] at hwf
                        simpa [wfOpt] using hwf
                      rw [hrt] at htr
                      have htr' : (if NodeD.oPPath r = p.take 1 then
                          Except.ok (some (FT_descend r (p.take 1) (p.drop 1)))
                        else (Except.error Status.CONFLICTING_PATH :
                          Except Status (Option NodeD))) = Except.ok (some curr) := htr
                      by_cases hb : NodeD.oPPath r = p.take 1
                      · rw [if_pos hb] at htr'
                        have hcurr : curr = FT_descend r (p.take 1) (p.drop 1) :=
                          (Option.some.inj (Except.ok.inj htr')).symm
                        obtain ⟨hgo, hfin⟩ := finishInsert_memerr _ _ hs'
                        rw [hfin]
                        have ht2 := insertFileGo_memerr ft.oNRoot (some (NodeD.oPPath curr)) p
                          alloc (p.drop (NodeD.oPPath curr).length)
                          (by
                            intro done' hex
                            rw [hrt]
                            rw [hcurr] at hex ⊢
                            exact rollback_ready r p hwfr hb done' hex)
                          (p.drop (NodeD.oPPath curr).length)
                          ((NodeD.oPPath curr).length + 1) (NodeD.oPPath curr) [] rfl hgo
                        rw [ht2, FT_set_root_self]
                      · rw [if_neg hb] at htr'
                        exact absurd htr' (by simp)

/-- Witness for C8 at a concrete input: inserting `/a/b/c` into the tree
holding only `/a` with the allocation for the second new level failing
returns MEMORY_ERROR for both operations and leaves the state untouched. -/
theorem claim_C8_insert_atomic_witness :
    wfOpt ftA.oNRoot = true ∧
    (FT_insertDir ftA [0, 1, 2] (fun i => decide (i ≠ 3))).1 = Status.MEMORY_ERROR ∧
    (FT_insertFile ftA [0, 1, 2] (some [7]) 1 (fun i => decide (i ≠ 3))).1 =
      Status.MEMORY_ERROR ∧
    (FT_insertDir ftA [0, 1, 2] (fun i => decide (i ≠ 3))).2 = ftA ∧
    (FT_insertFile ftA [0, 1, 2] (some [7]) 1 (fun i => decide (i ≠ 3))).2 = ftA :=
  ⟨by decide, by decide, by decide,
    (claim_C8_insert_atomic ftA [0, 1, 2] (some [7]) 1 (fun i => decide (i ≠ 3))
      (by decide)).1 (by decide),
    (claim_C8_insert_atomic ftA [0, 1, 2] (some [7]) 1 (fun i => decide (i ≠ 3))
      (by decide)).2 (by decide)⟩
